import Mathlib

/-!
# Debounced push-button helper (`Button.h`, `Button.cpp`)

A shallow embedding of the `Button` class and a verification of its
debounce state machine.

* The object's data members become the fields of the structure `Button`.
* `bool` members are `Bool`; `HIGH` and `LOW` are the integer constants of
  `Arduino.h`, and the conversions between `bool` and `int` that C++
  inserts are written out as `intToBool` and `boolToInt`.
* `unsigned long` values are natural numbers below `ULONG_MOD`; the one
  subtraction of the program is `ulongSub`, reduced modulo `ULONG_MOD`.
* `digitalRead(pin)` and `millis()` are the two ambient inputs of
  `update()`; they are the arguments `reading` and `now` of `Button.update`.
-/

/-- Value of `HIGH` in `Arduino.h` (`#define HIGH 0x1`). -/
def HIGH : Int := 1

/-- Value of `LOW` in `Arduino.h` (`#define LOW 0x0`). -/
def LOW : Int := 0

/-- The two pin modes that `begin()` passes to `pinMode`. -/
inductive PinMode where
  | INPUT
  | INPUT_PULLUP
deriving DecidableEq, Repr

/-- Width in bits of `unsigned long` on the Arduino targets. -/
def ULONG_BITS : Nat := 32

/-- Number of values of an `unsigned long`. -/
def ULONG_MOD : Nat := 2 ^ ULONG_BITS

/-- Number of values of a `uint8_t`. -/
def UINT8_MOD : Nat := 256

/-- Conversion of an `int` to `bool`: every nonzero value is `true`. -/
def intToBool (x : Int) : Bool := x != 0

/-- Promotion of a `bool` to `int`: `true` is 1 and `false` is 0. -/
def boolToInt (b : Bool) : Int := if b then 1 else 0

/-- Subtraction `a - b` of two `unsigned long` values, which wraps around
modulo `ULONG_MOD`. -/
def ulongSub (a b : Nat) : Nat :=
  (a % ULONG_MOD + (ULONG_MOD - b % ULONG_MOD)) % ULONG_MOD

/-- Data members of `class Button`, in the order of `Button.h`. -/
structure Button where
  pin : Nat
  usePullup : Bool
  lastChangeTime : Nat
  debounceMs : Nat
  lastStableState : Bool
  currentState : Bool
  pressedEvent : Bool
deriving DecidableEq, Repr

namespace Button

/-- Constructor `Button::Button(pinNumber, enablePullup, debounce)`: the
arguments are converted to the parameter types `uint8_t`, `bool` and
`unsigned long`, and the three state members start at `HIGH`, `HIGH`,
`false`, with the timer at 0. -/
def ctor (pinNumber : Nat) (enablePullup : Bool) (debounce : Nat) : Button :=
  { pin := pinNumber % UINT8_MOD
    usePullup := enablePullup
    lastChangeTime := 0
    debounceMs := debounce % ULONG_MOD
    lastStableState := intToBool HIGH
    currentState := intToBool HIGH
    pressedEvent := false }

/-- The call `pinMode(pin, mode)` that `begin()` issues to the hardware. -/
def beginPinMode (b : Button) : Nat × PinMode :=
  if b.usePullup then (b.pin, PinMode.INPUT_PULLUP) else (b.pin, PinMode.INPUT)

/-- Effect of `Button::begin()` on the object: `lastStableState` becomes
`HIGH` with the pull-up and `LOW` without, and `currentState` is set to the
same value. -/
def begin (b : Button) : Button :=
  let b1 : Button :=
    if b.usePullup then { b with lastStableState := intToBool HIGH }
    else { b with lastStableState := intToBool LOW }
  { b1 with currentState := b1.lastStableState }

/-- Effect of `Button::update()`, where `reading` is the `int` returned by
`digitalRead(pin)` and `now` the `unsigned long` returned by `millis()`. -/
def update (b : Button) (reading : Int) (now : Nat) : Button :=
  let b1 : Button := { b with pressedEvent := false }
  let b2 : Button :=
    if reading ≠ boolToInt b1.currentState then
      { b1 with currentState := intToBool reading, lastChangeTime := now }
    else b1
  if ulongSub now b2.lastChangeTime > b2.debounceMs then
    if b2.lastStableState ≠ b2.currentState then
      let b3 : Button :=
        if b2.usePullup then
          if boolToInt b2.lastStableState = HIGH ∧ boolToInt b2.currentState = LOW then
            { b2 with pressedEvent := true }
          else b2
        else
          if boolToInt b2.lastStableState = LOW ∧ boolToInt b2.currentState = HIGH then
            { b2 with pressedEvent := true }
          else b2
      { b3 with lastStableState := b3.currentState }
    else b2
  else b2

/-- Method `Button::wasPressed()`: the returned value and the object after
the call. -/
def wasPressed (b : Button) : Bool × Button := (b.pressedEvent, b)

/-- Method `Button::isPressed() const`: the returned value and the object
after the call. -/
def isPressed (b : Button) : Bool × Button :=
  if b.usePullup then (decide (boolToInt b.lastStableState = LOW), b)
  else (decide (boolToInt b.lastStableState = HIGH), b)

/-- One polling cycle fed with a boolean sample `x.1` (promoted to the
`int` that `digitalRead` returns) at time `x.2`. -/
def step (s : Button) (x : Bool × Nat) : Button := update s (boolToInt x.1) x.2

/-- State after a sequence of polling cycles. -/
def run (s : Button) (xs : List (Bool × Nat)) : Button := xs.foldl step s

/-- States observed after each polling cycle of a sequence, in order. -/
def trace (s : Button) : List (Bool × Nat) → List Button
  | [] => []
  | x :: xs => step s x :: trace (step s x) xs

/-- Number of polling cycles of a sequence after which `wasPressed()`
returns true. -/
def edgeCount (s : Button) (xs : List (Bool × Nat)) : Nat :=
  (trace s xs).countP (fun t => (wasPressed t).1)

/-- Level of the idle input for the wiring mode: `HIGH` with the pull-up,
`LOW` without (the value that `begin()` stores). -/
def idleLevel (b : Button) : Bool :=
  if b.usePullup then intToBool HIGH else intToBool LOW

/-- Level of the pressed input for the wiring mode: `LOW` with the pull-up,
`HIGH` without (the value that `isPressed()` tests for). -/
def activeLevel (b : Button) : Bool :=
  if b.usePullup then intToBool LOW else intToBool HIGH

/-- A pull-up tracker (window 50) whose raw level went `LOW` at time 20
while the accepted level is still `HIGH`. -/
def pendingPress : Button :=
  { pin := 2, usePullup := true, lastChangeTime := 20, debounceMs := 50,
    lastStableState := true, currentState := false, pressedEvent := false }

/-- A pull-up tracker (window 50) whose raw level went `LOW` at time
2^32 - 50, fifty ticks before the clock rolls over, while the accepted level
is still `HIGH`. -/
def pendingBeforeRollover : Button :=
  { pin := 2, usePullup := true, lastChangeTime := 4294967246, debounceMs := 50,
    lastStableState := true, currentState := false, pressedEvent := false }

/-- A pull-up tracker (window 50) whose raw level went `LOW` at time
2^32 - 10, ten ticks before the clock rolls over, while the accepted level is
still `HIGH`. -/
def pendingAcrossRollover : Button :=
  { pin := 2, usePullup := true, lastChangeTime := 4294967286, debounceMs := 50,
    lastStableState := true, currentState := false, pressedEvent := false }

/-- The object with its timer `lastChangeTime` moved forward by `k` ticks of
the `unsigned long` clock. -/
def shiftTimer (b : Button) (k : Nat) : Button :=
  { b with lastChangeTime := (b.lastChangeTime + k) % ULONG_MOD }

/-- A call of one of the four public methods, with the values that
`digitalRead` and `millis` return in the case of `update()`. -/
inductive Call where
  | begin
  | update (reading : Int) (now : Nat)
  | wasPressed
  | isPressed
deriving DecidableEq, Repr

/-- The object after one method call. -/
def applyCall (b : Button) : Call → Button
  | Call.begin => begin b
  | Call.update reading now => update b reading now
  | Call.wasPressed => (wasPressed b).2
  | Call.isPressed => (isPressed b).2

/-- The object after a sequence of method calls. -/
def runCalls (b : Button) (cs : List Call) : Button := cs.foldl applyCall b

/-- The sequence of polling cycles with every sample inverted and the same
timestamps. -/
def invertSamples (xs : List (Bool × Nat)) : List (Bool × Nat) :=
  xs.map (fun x => (!x.1, x.2))

/-- Two objects are mirror images: the first uses the pull-up and the second
does not, they have the same window, timer and flag, and their accepted and
raw levels are inverses of each other. -/
def Mirror (s1 s2 : Button) : Prop :=
  s1.usePullup = true ∧ s2.usePullup = false ∧
  s2.debounceMs = s1.debounceMs ∧ s2.lastChangeTime = s1.lastChangeTime ∧
  s2.lastStableState = (!s1.lastStableState) ∧ s2.currentState = (!s1.currentState) ∧
  s2.pressedEvent = s1.pressedEvent

/-! ## Basic facts about one polling cycle -/

theorem boolToInt_HIGH : boolToInt (intToBool HIGH) = HIGH := by decide

theorem boolToInt_LOW : boolToInt (intToBool LOW) = LOW := by decide

theorem ulongSub_self (t : Nat) : ulongSub t t = 0 := by
  unfold ulongSub
  have h : t % ULONG_MOD < ULONG_MOD := Nat.mod_lt _ (by decide)
  have e : t % ULONG_MOD + (ULONG_MOD - t % ULONG_MOD) = ULONG_MOD := by omega
  rw [e, Nat.mod_self]

theorem ulongSub_of_le {a b : Nat} (hab : b ≤ a) (ha : a < ULONG_MOD) :
    ulongSub a b = a - b := by
  unfold ulongSub
  have hb : b < ULONG_MOD := lt_of_le_of_lt hab ha
  rw [Nat.mod_eq_of_lt ha, Nat.mod_eq_of_lt hb]
  have e : a + (ULONG_MOD - b) = (a - b) + ULONG_MOD := by omega
  rw [e, Nat.add_mod_right, Nat.mod_eq_of_lt (by omega)]

/-- One polling cycle on a boolean sample, written on `Bool` values. -/
theorem update_bool (b : Button) (r : Bool) (now : Nat) :
    update b (boolToInt r) now =
      (if ulongSub now (if r = b.currentState then b.lastChangeTime else now) > b.debounceMs
          ∧ b.lastStableState ≠ r then
        { b with
          currentState := r
          lastChangeTime := if r = b.currentState then b.lastChangeTime else now
          lastStableState := r
          pressedEvent := decide (b.lastStableState = b.usePullup ∧ r = !b.usePullup) }
      else
        { b with
          currentState := r
          lastChangeTime := if r = b.currentState then b.lastChangeTime else now
          pressedEvent := false }) := by
  obtain ⟨pin, up, lct, d, st, cur, ev⟩ := b
  cases up <;> cases st <;> cases cur <;> cases r <;>
    simp [update, boolToInt, intToBool, HIGH, LOW, ulongSub_self]

/-- Field-by-field form of `update_bool` for the accepted level. -/
theorem update_stable (b : Button) (r : Bool) (now : Nat) :
    (update b (boolToInt r) now).lastStableState =
      (if ulongSub now (if r = b.currentState then b.lastChangeTime else now) > b.debounceMs
          ∧ b.lastStableState ≠ r then r else b.lastStableState) := by
  rw [update_bool]; split_ifs <;> rfl

theorem update_current (b : Button) (r : Bool) (now : Nat) :
    (update b (boolToInt r) now).currentState = r := by
  rw [update_bool]; split_ifs <;> rfl

theorem update_lastChange (b : Button) (r : Bool) (now : Nat) :
    (update b (boolToInt r) now).lastChangeTime =
      (if r = b.currentState then b.lastChangeTime else now) := by
  rw [update_bool]; split_ifs <;> rfl

theorem update_event (b : Button) (r : Bool) (now : Nat) :
    (update b (boolToInt r) now).pressedEvent =
      (decide (ulongSub now (if r = b.currentState then b.lastChangeTime else now) > b.debounceMs)
        && (b.lastStableState == b.usePullup) && (r == !b.usePullup)) := by
  obtain ⟨pin, up, lct, d, st, cur, ev⟩ := b
  rw [update_bool]
  dsimp only
  generalize (if r = cur then lct else now) = L
  by_cases h : ulongSub now L > d <;>
    cases up <;> cases st <;> cases r <;> simp [h]

theorem update_debounceMs (b : Button) (r : Bool) (now : Nat) :
    (update b (boolToInt r) now).debounceMs = b.debounceMs := by
  rw [update_bool]; split_ifs <;> rfl

theorem update_usePullup (b : Button) (r : Bool) (now : Nat) :
    (update b (boolToInt r) now).usePullup = b.usePullup := by
  rw [update_bool]; split_ifs <;> rfl

theorem ulongSub_ne_zero {a b : Nat} (ha : a < ULONG_MOD) (hb : b < ULONG_MOD)
    (hne : a ≠ b) : ulongSub a b ≠ 0 := by
  unfold ulongSub
  rw [Nat.mod_eq_of_lt ha, Nat.mod_eq_of_lt hb]
  rcases Nat.lt_or_ge a b with h | h
  · rw [Nat.mod_eq_of_lt (by omega)]; omega
  · have e : a + (ULONG_MOD - b) = (a - b) + ULONG_MOD := by omega
    rw [e, Nat.add_mod_right, Nat.mod_eq_of_lt (by omega)]; omega

/-- Two polling cycles with the same sample, the first of which sees the raw
level change: the sample is accepted by the second cycle as soon as the
unsigned time difference exceeds the window. -/
theorem update_twice_stable (b : Button) (r : Bool) (t1 t2 : Nat)
    (hraw : r ≠ b.currentState) (h : b.debounceMs < ulongSub t2 t1) :
    (update (update b (boolToInt r) t1) (boolToInt r) t2).lastStableState = r := by
  rw [update_stable, update_current, update_lastChange, update_debounceMs]
  simp only [if_true, if_neg hraw]
  split_ifs with hc
  · rfl
  · have := not_not.mp (fun hne => hc ⟨h, hne⟩)
    exact this

/-! ## Claims -/

/-- C1. After `update()`, `wasPressed()` is true exactly when that call moved
`lastStableState` from the inactive level to the active level of the wiring
mode (`HIGH` to `LOW` with the pull-up, `LOW` to `HIGH` without). The flag is
false after a call that leaves `lastStableState` unchanged and after a call
that performs a release (active to inactive), whatever it was before. -/
theorem C1_edge_flag (b : Button) (r : Bool) (now : Nat) :
    ((wasPressed (update b (boolToInt r) now)).1 = true ↔
      (b.lastStableState = (if b.usePullup then intToBool HIGH else intToBool LOW) ∧
       (update b (boolToInt r) now).lastStableState =
         (if b.usePullup then intToBool LOW else intToBool HIGH))) ∧
    ((update b (boolToInt r) now).lastStableState = b.lastStableState →
      (wasPressed (update b (boolToInt r) now)).1 = false) ∧
    ((b.lastStableState = (if b.usePullup then intToBool LOW else intToBool HIGH) ∧
       (update b (boolToInt r) now).lastStableState =
         (if b.usePullup then intToBool HIGH else intToBool LOW)) →
      (wasPressed (update b (boolToInt r) now)).1 = false) := by
  obtain ⟨pin, up, lct, d, st, cur, ev⟩ := b
  simp only [wasPressed, update_event, update_stable]
  by_cases h : ulongSub now (if r = cur then lct else now) > d <;>
    cases up <;> cases st <;> cases r <;> simp [h, intToBool, HIGH, LOW]

/-- C1 applied to `pendingPress` at time 80: the accepted level goes from
`HIGH` to `LOW`, so the flag is raised. -/
theorem C1_edge_flag_witness :
    (wasPressed (update pendingPress (boolToInt false) 80)).1 = true :=
  (C1_edge_flag pendingPress false 80).1.2 ⟨by decide, by decide⟩

/-- C2. Postcondition of `update(rawSample, now)` on the level and timer
members: `currentState` is the sample; `lastChangeTime` is `now` when the
sample differed from the previous `currentState` and is unchanged otherwise;
`lastStableState` is the new `currentState` when the unsigned difference
`now - lastChangeTime` (new value of the timer) exceeds `debounceMs` and the
old `lastStableState` differs from the new `currentState`, and is unchanged
otherwise. -/
theorem C2_update_postcondition (b : Button) (r : Bool) (now : Nat) :
    (update b (boolToInt r) now).currentState = r ∧
    (update b (boolToInt r) now).lastChangeTime =
      (if r ≠ b.currentState then now else b.lastChangeTime) ∧
    (update b (boolToInt r) now).lastStableState =
      (if ulongSub now (update b (boolToInt r) now).lastChangeTime > b.debounceMs ∧
          b.lastStableState ≠ (update b (boolToInt r) now).currentState
        then (update b (boolToInt r) now).currentState
        else b.lastStableState) := by
  refine ⟨update_current b r now, ?_, ?_⟩
  · rw [update_lastChange]; by_cases h : r = b.currentState <;> simp [h]
  · rw [update_stable, update_lastChange, update_current]

/-- C4. When the sample equals `currentState` and differs from
`lastStableState`, a call whose unsigned time difference is exactly
`debounceMs` leaves `lastStableState` unchanged and the flag false, and a
call whose difference is `debounceMs + 1` sets `lastStableState` to the
sample, which is a change of its value. -/
theorem C4_boundary (b : Button) (r : Bool)
    (hraw : r = b.currentState) (hst : r ≠ b.lastStableState) :
    (∀ now : Nat, ulongSub now b.lastChangeTime = b.debounceMs →
      (update b (boolToInt r) now).lastStableState = b.lastStableState ∧
      (wasPressed (update b (boolToInt r) now)).1 = false) ∧
    (∀ now : Nat, ulongSub now b.lastChangeTime = b.debounceMs + 1 →
      (update b (boolToInt r) now).lastStableState = r ∧
      (update b (boolToInt r) now).lastStableState ≠ b.lastStableState) := by
  constructor
  · intro now h1
    simp only [wasPressed, update_event, update_stable]
    simp [hraw, h1]
  · intro now h2
    have hval : (update b (boolToInt r) now).lastStableState = r := by
      rw [update_stable]; simp [hraw, h2]
    exact ⟨hval, fun h => hst (hval.symm.trans h)⟩

/-- C4 at `pendingPress` (timer 20, window 50): time 70 is on the boundary,
time 71 is one past it. -/
theorem C4_boundary_witness :
    ((update pendingPress (boolToInt false) 70).lastStableState = true ∧
      (wasPressed (update pendingPress (boolToInt false) 70)).1 = false) ∧
    ((update pendingPress (boolToInt false) 71).lastStableState = false ∧
      (update pendingPress (boolToInt false) 71).lastStableState ≠ true) :=
  ⟨(C4_boundary pendingPress false (by decide) (by decide)).1 70 (by decide),
   (C4_boundary pendingPress false (by decide) (by decide)).2 71 (by decide)⟩

/-- C9. After `begin()`, `lastStableState` and `currentState` both hold the
idle level of the wiring mode (`HIGH` with the pull-up, `LOW` without), and
`isPressed()` returns false. -/
theorem C9_begin_idle (b : Button) :
    (begin b).lastStableState = (if b.usePullup then intToBool HIGH else intToBool LOW) ∧
    (begin b).currentState = (if b.usePullup then intToBool HIGH else intToBool LOW) ∧
    (isPressed (begin b)).1 = false := by
  obtain ⟨pin, up, lct, d, st, cur, ev⟩ := b
  cases up <;> simp [begin, isPressed, intToBool, boolToInt, HIGH, LOW]

/-- C10. `isPressed()` returns true exactly when `lastStableState` is the
active level of the wiring mode (`LOW` with the pull-up, `HIGH` without);
two objects that agree on `lastStableState` and `usePullup` give the same
result; and the object after the call is the object before it. -/
theorem C10_isPressed_pure (b : Button) :
    ((isPressed b).1 = true ↔
      b.lastStableState = (if b.usePullup then intToBool LOW else intToBool HIGH)) ∧
    (∀ c : Button, c.lastStableState = b.lastStableState → c.usePullup = b.usePullup →
      (isPressed c).1 = (isPressed b).1) ∧
    (isPressed b).2 = b := by
  refine ⟨?_, ?_, ?_⟩
  · obtain ⟨pin, up, lct, d, st, cur, ev⟩ := b
    cases up <;> cases st <;> simp [isPressed, intToBool, boolToInt, HIGH, LOW]
  · intro c hs hu
    simp only [isPressed, hs, hu]
    split <;> rfl
  · unfold isPressed; split <;> rfl

/-- C10 applied to two objects that differ in every member except
`lastStableState` and `usePullup`. -/
theorem C10_isPressed_pure_witness :
    (isPressed (ctor 7 true 10)).1 = (isPressed ({ pendingPress with currentState := true })).1 :=
  (C10_isPressed_pure _).2.1 _ (by decide) (by decide)

/-- C5, as stated, fails: a pull-up tracker built with a window of 0, after
`begin()`, sees the raw level go `LOW` at time 100, and `lastStableState` is
still `HIGH` at the end of that `update()` call. -/
theorem C5_counterexample :
    (begin (ctor 2 true 0)).debounceMs = 0 ∧
    false ≠ (begin (ctor 2 true 0)).currentState ∧
    false ≠ (begin (ctor 2 true 0)).lastStableState ∧
    (update (begin (ctor 2 true 0)) (boolToInt false) 100).lastStableState ≠ false := by
  decide

/-- C5, amended. With `debounceMs = 0`, the `update()` call that sees the raw
level change leaves `lastStableState` as it was (the elapsed time is 0, which
is not greater than 0) and the flag false; the next `update()` call with the
same sample at any other timestamp sets `lastStableState` to the sample. -/
theorem C5_zero_window (b : Button) (r : Bool) (now now2 : Nat)
    (hd : b.debounceMs = 0) (hraw : r ≠ b.currentState)
    (hnow : now < ULONG_MOD) (hnow2 : now2 < ULONG_MOD) (hne : now2 ≠ now) :
    ((update b (boolToInt r) now).lastStableState = b.lastStableState ∧
      (wasPressed (update b (boolToInt r) now)).1 = false) ∧
    (update (update b (boolToInt r) now) (boolToInt r) now2).lastStableState = r := by
  refine ⟨⟨?_, ?_⟩, ?_⟩
  · rw [update_stable]; simp [hraw, ulongSub_self]
  · simp only [wasPressed, update_event]; simp [hraw, ulongSub_self]
  · apply update_twice_stable b r now now2 hraw
    rw [hd]
    exact Nat.pos_of_ne_zero (ulongSub_ne_zero hnow2 hnow hne)

/-- C5 (amended) on the tracker of the counterexample: the change seen at
time 100 is accepted at time 101. -/
theorem C5_zero_window_witness :
    ((update (begin (ctor 2 true 0)) (boolToInt false) 100).lastStableState =
        (begin (ctor 2 true 0)).lastStableState ∧
      (wasPressed (update (begin (ctor 2 true 0)) (boolToInt false) 100)).1 = false) ∧
    (update (update (begin (ctor 2 true 0)) (boolToInt false) 100)
      (boolToInt false) 101).lastStableState = false :=
  C5_zero_window (begin (ctor 2 true 0)) false 100 101 (by decide) (by decide)
    (by decide) (by decide) (by decide)

/-- C8. After `begin()`, two `update()` calls that read the active level
(`LOW` with the pull-up, `HIGH` without) at timestamps more than `debounceMs`
apart, either as an unsigned difference or as a plain difference of two
ordered timestamps, make `isPressed()` return true, for every window. -/
theorem C8_polarity_symmetry (b : Button) (t1 t2 : Nat)
    (h : b.debounceMs < ulongSub t2 t1 ∨
      (t1 ≤ t2 ∧ t2 < ULONG_MOD ∧ b.debounceMs < t2 - t1)) :
    (b.usePullup = true →
      (isPressed (update (update (begin b) LOW t1) LOW t2)).1 = true) ∧
    (b.usePullup = false →
      (isPressed (update (update (begin b) HIGH t1) HIGH t2)).1 = true) := by
  have hd : (begin b).debounceMs < ulongSub t2 t1 := by
    have e : (begin b).debounceMs = b.debounceMs := by unfold begin; split <;> rfl
    rw [e]
    rcases h with h | ⟨h1, h2, h3⟩
    · exact h
    · rw [ulongSub_of_le h1 h2]; exact h3
  constructor
  · intro hp
    have hraw : false ≠ (begin b).currentState := by simp [begin, hp, intToBool, HIGH]
    have hs := update_twice_stable (begin b) false t1 t2 hraw hd
    have hu : (update (update (begin b) (boolToInt false) t1) (boolToInt false) t2).usePullup
        = true := by
      rw [update_usePullup, update_usePullup]; simp [begin, hp]
    change (isPressed (update (update (begin b) (boolToInt false) t1) (boolToInt false) t2)).1
      = true
    simp only [isPressed, hu, hs, if_true, Bool.false_eq_true, if_false]; decide
  · intro hp
    have hraw : true ≠ (begin b).currentState := by simp [begin, hp, intToBool, LOW]
    have hs := update_twice_stable (begin b) true t1 t2 hraw hd
    have hu : (update (update (begin b) (boolToInt true) t1) (boolToInt true) t2).usePullup
        = false := by
      rw [update_usePullup, update_usePullup]; simp [begin, hp]
    change (isPressed (update (update (begin b) (boolToInt true) t1) (boolToInt true) t2)).1
      = true
    simp only [isPressed, hu, hs, if_true, Bool.false_eq_true, if_false]; decide

/-- C8 on the two wiring modes with a window of 50 and timestamps 10, 61. -/
theorem C8_polarity_symmetry_witness :
    (isPressed (update (update (begin (ctor 2 true 50)) LOW 10) LOW 61)).1 = true ∧
    (isPressed (update (update (begin (ctor 2 false 50)) HIGH 10) HIGH 61)).1 = true :=
  ⟨(C8_polarity_symmetry (ctor 2 true 50) 10 61
      (Or.inr ⟨by decide, by decide, by decide⟩)).1 rfl,
   (C8_polarity_symmetry (ctor 2 false 50) 10 61
      (Or.inr ⟨by decide, by decide, by decide⟩)).2 rfl⟩

/-! ## Runs of polling cycles -/

theorem run_nil (s : Button) : run s [] = s := rfl

theorem run_cons (s : Button) (x : Bool × Nat) (xs : List (Bool × Nat)) :
    run s (x :: xs) = run (step s x) xs := rfl

theorem run_append (s : Button) (xs ys : List (Bool × Nat)) :
    run s (xs ++ ys) = run (run s xs) ys := by
  unfold run; rw [List.foldl_append]

theorem run_concat (s : Button) (xs : List (Bool × Nat)) (x : Bool × Nat) :
    run s (xs ++ [x]) = step (run s xs) x := by
  rw [run_append]; rfl

theorem begin_debounceMs (b : Button) : (begin b).debounceMs = b.debounceMs := by
  unfold begin; split <;> rfl

theorem begin_usePullup (b : Button) : (begin b).usePullup = b.usePullup := by
  unfold begin; split <;> rfl

theorem begin_stable_eq_current (b : Button) :
    (begin b).lastStableState = (begin b).currentState := by
  unfold begin; split <;> rfl

theorem run_debounceMs (s : Button) (xs : List (Bool × Nat)) :
    (run s xs).debounceMs = s.debounceMs := by
  induction xs generalizing s with
  | nil => rfl
  | cons x xs ih => rw [run_cons, ih, step, update_debounceMs]

theorem run_usePullup (s : Button) (xs : List (Bool × Nat)) :
    (run s xs).usePullup = s.usePullup := by
  induction xs generalizing s with
  | nil => rfl
  | cons x xs ih => rw [run_cons, ih, step, update_usePullup]

/-- Invariant of every run that starts with `begin()`: either the accepted
level equals the raw level, or the run contains a cycle `y` at which the
timer was last restarted, and every sample from `y` on is the raw level. -/
theorem run_begin_timer (b0 : Button) (pre : List (Bool × Nat)) :
    (run (begin b0) pre).lastStableState = (run (begin b0) pre).currentState ∨
    ∃ p1 y p2, pre = p1 ++ y :: p2 ∧
      (∀ z ∈ y :: p2, z.1 = (run (begin b0) pre).currentState) ∧
      (run (begin b0) pre).lastChangeTime = y.2 := by
  induction pre using List.reverseRecOn with
  | nil => exact Or.inl (begin_stable_eq_current b0)
  | append_singleton pre x ih =>
    rw [run_concat]
    simp only [step, update_stable, update_current, update_lastChange]
    by_cases hx : x.1 = (run (begin b0) pre).currentState
    · rcases ih with h | ⟨p1, y, p2, hpre, hall, ht⟩
      · left
        rw [if_neg]
        · rw [h, hx]
        · rintro ⟨_, hne⟩
          exact hne (h.trans hx.symm)
      · right
        refine ⟨p1, y, p2 ++ [x], ?_, ?_, ?_⟩
        · rw [hpre]; simp
        · intro z hz
          have hz2 : z ∈ y :: p2 ∨ z = x := by
            simpa [List.mem_append, or_assoc] using hz
          rcases hz2 with hz2 | hz2
          · rw [hall z hz2, hx]
          · rw [hz2]
        · rw [if_pos hx, ht]
    · right
      refine ⟨pre, x, [], rfl, ?_, ?_⟩
      · intro z hz
        rw [List.mem_singleton.mp hz]
      · rw [if_neg hx]

/-- C3. Re-arming on bounce. In a run `begin()` then `update()` calls with
non-decreasing timestamps below 2^32, if the cycle `x` that follows the
cycles `pre` changes `lastStableState`, then `pre` contains an earlier cycle
`y` such that every sample from `y` through `x` is the new `lastStableState`
and `x.2 - y.2 > debounceMs`. Scenario (window 50, pull-up, after `begin()`):
the cycles (HIGH,0), (LOW,10), (HIGH,15), (LOW,20) leave `isPressed()` and
`wasPressed()` false, and the cycle (LOW,80) then gives `lastStableState`
`LOW` with `wasPressed()` and `isPressed()` true. -/
theorem C3_rearm_on_bounce :
    (∀ (b0 : Button) (pre : List (Bool × Nat)) (x : Bool × Nat),
      List.Sorted (fun a b => a ≤ b) (List.map Prod.snd (pre ++ [x])) →
      (∀ z ∈ pre ++ [x], z.2 < ULONG_MOD) →
      (step (run (begin b0) pre) x).lastStableState ≠
        (run (begin b0) pre).lastStableState →
      ∃ p1 y p2, pre = p1 ++ y :: p2 ∧
        (∀ z ∈ y :: p2 ++ [x], z.1 = (step (run (begin b0) pre) x).lastStableState) ∧
        y.2 ≤ x.2 ∧ b0.debounceMs < x.2 - y.2) ∧
    ((∀ s ∈ trace (begin (ctor 2 true 50)) [(true, 0), (false, 10), (true, 15), (false, 20)],
        (isPressed s).1 = false ∧ (wasPressed s).1 = false) ∧
      (run (begin (ctor 2 true 50))
        [(true, 0), (false, 10), (true, 15), (false, 20), (false, 80)]).lastStableState
          = intToBool LOW ∧
      (wasPressed (run (begin (ctor 2 true 50))
        [(true, 0), (false, 10), (true, 15), (false, 20), (false, 80)])).1 = true ∧
      (isPressed (run (begin (ctor 2 true 50))
        [(true, 0), (false, 10), (true, 15), (false, 20), (false, 80)])).1 = true) := by
  refine ⟨?_, by decide⟩
  intro b0 pre x hsorted hrange hchange
  have hd : (run (begin b0) pre).debounceMs = b0.debounceMs := by
    rw [run_debounceMs, begin_debounceMs]
  simp only [step, update_stable, hd] at hchange ⊢
  by_cases hcond :
      ulongSub x.2 (if x.1 = (run (begin b0) pre).currentState
        then (run (begin b0) pre).lastChangeTime else x.2) > b0.debounceMs
      ∧ (run (begin b0) pre).lastStableState ≠ x.1
  · rw [if_pos hcond]
    obtain ⟨hdelta, hne⟩ := hcond
    by_cases hx : x.1 = (run (begin b0) pre).currentState
    · rw [if_pos hx] at hdelta
      rcases run_begin_timer b0 pre with h | ⟨p1, y, p2, hpre, hall, ht⟩
      · exact absurd (h.trans hx.symm) hne
      · have hy : y ∈ pre := by rw [hpre]; simp
        have hle : y.2 ≤ x.2 := by
          rw [List.map_append, List.Sorted, List.pairwise_append] at hsorted
          exact hsorted.2.2 y.2 (List.mem_map_of_mem _ hy) x.2 (by simp)
        have hxr : x.2 < ULONG_MOD := hrange x (by simp)
        rw [ht, ulongSub_of_le hle hxr] at hdelta
        refine ⟨p1, y, p2, hpre, ?_, hle, hdelta⟩
        intro z hz
        have hz2 : z ∈ y :: p2 ∨ z = x := by
          simpa [List.mem_append, or_assoc] using hz
        rcases hz2 with hz2 | hz2
        · rw [hall z hz2, hx]
        · rw [hz2]
    · rw [if_neg hx, ulongSub_self] at hdelta
      exact absurd hdelta (Nat.not_lt_zero _)
  · rw [if_neg hcond] at hchange
    exact absurd rfl hchange

/-- C3 applied to the scenario: the change at (LOW,80) is backed by the
cycle (LOW,20), 60 ticks earlier. -/
theorem C3_rearm_on_bounce_witness :
    ∃ p1 y p2, [(true, 0), (false, 10), (true, 15), (false, 20)] = p1 ++ y :: p2 ∧
      (∀ z ∈ y :: p2 ++ [(false, 80)],
        z.1 = (step (run (begin (ctor 2 true 50))
          [(true, 0), (false, 10), (true, 15), (false, 20)]) (false, 80)).lastStableState) ∧
      y.2 ≤ 80 ∧ 50 < 80 - y.2 :=
  C3_rearm_on_bounce.1 (ctor 2 true 50) [(true, 0), (false, 10), (true, 15), (false, 20)]
    (false, 80) (by decide) (by decide) (by decide)

/-! ## Counting press edges -/

theorem trace_append (s : Button) (xs ys : List (Bool × Nat)) :
    trace s (xs ++ ys) = trace s xs ++ trace (run s xs) ys := by
  induction xs generalizing s with
  | nil => rfl
  | cons x xs ih =>
    show step s x :: trace (step s x) (xs ++ ys) = step s x :: trace (step s x) xs ++ _
    rw [ih]; rfl

theorem edgeCount_nil (s : Button) : edgeCount s [] = 0 := rfl

theorem edgeCount_cons (s : Button) (x : Bool × Nat) (xs : List (Bool × Nat)) :
    edgeCount s (x :: xs) =
      edgeCount (step s x) xs + (if (step s x).pressedEvent = true then 1 else 0) := by
  simp only [edgeCount, trace, List.countP_cons, wasPressed]

theorem edgeCount_append (s : Button) (xs ys : List (Bool × Nat)) :
    edgeCount s (xs ++ ys) = edgeCount s xs + edgeCount (run s xs) ys := by
  simp only [edgeCount, trace_append, List.countP_append]

theorem idleLevel_eq (b : Button) : idleLevel b = b.usePullup := by
  unfold idleLevel; cases b.usePullup <;> decide

theorem activeLevel_eq (b : Button) : activeLevel b = !b.usePullup := by
  unfold activeLevel; cases b.usePullup <;> decide

/-- A cycle whose sample is already both the raw and the accepted level
changes neither and raises no flag. -/
theorem step_hold (s : Button) (r : Bool) (t : Nat)
    (hs : s.lastStableState = r) (hc : s.currentState = r) :
    (step s (r, t)).lastStableState = r ∧ (step s (r, t)).currentState = r ∧
      (step s (r, t)).pressedEvent = false := by
  simp only [step]
  refine ⟨?_, update_current s r t, ?_⟩
  · rw [update_stable, if_neg]
    · exact hs
    · rintro ⟨_, h⟩
      exact h hs
  · rw [update_event, hs]
    cases r <;> cases s.usePullup <;> simp

theorem trace_hold (s : Button) (r : Bool) (ts : List Nat)
    (hs : s.lastStableState = r) (hc : s.currentState = r) :
    ∀ u ∈ trace s (ts.map (fun t => (r, t))),
      u.lastStableState = r ∧ u.currentState = r ∧ u.pressedEvent = false := by
  induction ts generalizing s with
  | nil => intro u hu; simp [trace] at hu
  | cons t ts ih =>
    intro u hu
    have h := step_hold s r t hs hc
    simp only [List.map_cons, trace, List.mem_cons] at hu
    rcases hu with hu | hu
    · rw [hu]; exact h
    · exact ih (step s (r, t)) h.1 h.2.1 u hu

theorem run_hold (s : Button) (r : Bool) (ts : List Nat)
    (hs : s.lastStableState = r) (hc : s.currentState = r) :
    (run s (ts.map (fun t => (r, t)))).lastStableState = r ∧
      (run s (ts.map (fun t => (r, t)))).currentState = r := by
  induction ts generalizing s with
  | nil => exact ⟨hs, hc⟩
  | cons t ts ih =>
    have h := step_hold s r t hs hc
    exact ih (step s (r, t)) h.1 h.2.1

theorem edgeCount_hold (s : Button) (r : Bool) (ts : List Nat)
    (hs : s.lastStableState = r) (hc : s.currentState = r) :
    edgeCount s (ts.map (fun t => (r, t))) = 0 := by
  unfold edgeCount
  rw [List.countP_eq_zero]
  intro u hu
  simp [wasPressed, (trace_hold s r ts hs hc u hu).2.2]

/-- A cycle that reads the idle level never raises the flag. -/
theorem step_idle_event (s : Button) (r : Bool) (t : Nat) (hr : r = s.usePullup) :
    (step s (r, t)).pressedEvent = false := by
  simp only [step]
  rw [update_event, ← hr]
  cases r <;> simp

theorem edgeCount_idle (s : Button) (r : Bool) (ts : List Nat) (hr : r = s.usePullup) :
    edgeCount s (ts.map (fun t => (r, t))) = 0 := by
  induction ts generalizing s with
  | nil => rfl
  | cons t ts ih =>
    rw [List.map_cons, edgeCount_cons, step_idle_event s r t hr]
    have hu : r = (step s (r, t)).usePullup := by
      rw [step, update_usePullup]; exact hr
    simp [ih (step s (r, t)) hu]

/-- While an active raw level is waiting to be accepted (timer at `tf`),
further active samples at times from `tf` on raise the flag exactly once,
provided one of them comes more than the window after `tf`. -/
theorem edgeCount_pending (s : Button) (r : Bool) (tf : Nat) (ts : List Nat)
    (hr : r = !s.usePullup) (hc : s.currentState = r)
    (hs : s.lastStableState = s.usePullup) (hL : s.lastChangeTime = tf)
    (hts : ∀ t ∈ ts, tf ≤ t ∧ t < ULONG_MOD)
    (hheld : ∃ t ∈ ts, s.debounceMs < t - tf) :
    edgeCount s (ts.map (fun t => (r, t))) = 1 := by
  induction ts generalizing s with
  | nil => obtain ⟨t, ht, _⟩ := hheld; simp at ht
  | cons t ts ih =>
    have ht := hts t (by simp)
    have hdelta : ulongSub t (if r = s.currentState then s.lastChangeTime else t) = t - tf := by
      rw [if_pos hc.symm, hL, ulongSub_of_le ht.1 ht.2]
    have hne : s.lastStableState ≠ r := by
      rw [hs, hr]; cases s.usePullup <;> decide
    rw [List.map_cons, edgeCount_cons]
    simp only [step]
    by_cases h : s.debounceMs < t - tf
    · have hst : (update s (boolToInt r) t).lastStableState = r := by
        rw [update_stable, hdelta, if_pos ⟨h, hne⟩]
      have hev : (update s (boolToInt r) t).pressedEvent = true := by
        rw [update_event, hdelta, hs, hr]; simp [h]
      rw [edgeCount_hold _ r ts hst (update_current s r t)]
      simp [hev]
    · have hst : (update s (boolToInt r) t).lastStableState = s.lastStableState := by
        rw [update_stable, hdelta, if_neg (fun hh => h hh.1)]
      have hev : (update s (boolToInt r) t).pressedEvent = false := by
        rw [update_event, hdelta]; simp [h]
      have hrest : ∃ u ∈ ts, (update s (boolToInt r) t).debounceMs < u - tf := by
        obtain ⟨u, hu, hlt⟩ := hheld
        rw [update_debounceMs]
        rcases List.mem_cons.mp hu with hu | hu
        · rw [hu] at hlt; exact absurd hlt h
        · exact ⟨u, hu, hlt⟩
      rw [ih (update s (boolToInt r) t) (by rw [update_usePullup]; exact hr)
        (update_current s r t) (by rw [hst, update_usePullup]; exact hs)
        (by rw [update_lastChange, if_pos hc.symm]; exact hL)
        (fun u hu => hts u (List.mem_cons_of_mem _ hu)) hrest]
      simp [hev]

/-- C6. Single edge per press. In a run `begin()` then `update()` calls with
non-decreasing timestamps below 2^32 whose samples are a block of idle
samples (times `ts1`), a block of active samples (times `tf :: ts2`) and a
block of idle samples (times `ts3`), where some active cycle comes more than
`debounceMs` after the first active cycle `tf`, exactly one cycle of the whole
run ends with `wasPressed()` true. -/
theorem C6_single_edge (b0 : Button) (ts1 ts2 ts3 : List Nat) (tf : Nat)
    (hsorted : List.Sorted (fun a b => a ≤ b) (ts1 ++ (tf :: ts2) ++ ts3))
    (hrange : ∀ t ∈ ts1 ++ (tf :: ts2) ++ ts3, t < ULONG_MOD)
    (hheld : ∃ t ∈ ts2, b0.debounceMs < t - tf) :
    edgeCount (begin b0)
      (ts1.map (fun t => (idleLevel b0, t)) ++
        (tf :: ts2).map (fun t => (activeLevel b0, t)) ++
        ts3.map (fun t => (idleLevel b0, t))) = 1 := by
  rw [idleLevel_eq, activeLevel_eq]
  -- state after `begin()` and after the first idle block
  have hb : (begin b0).lastStableState = b0.usePullup ∧
      (begin b0).currentState = b0.usePullup := by
    unfold begin; cases b0.usePullup <;> simp [intToBool, HIGH, LOW]
  have h1 := run_hold (begin b0) b0.usePullup ts1 hb.1 hb.2
  have hu1 : (run (begin b0) (ts1.map (fun t => (b0.usePullup, t)))).usePullup
      = b0.usePullup := by rw [run_usePullup, begin_usePullup]
  have hd1 : (run (begin b0) (ts1.map (fun t => (b0.usePullup, t)))).debounceMs
      = b0.debounceMs := by rw [run_debounceMs, begin_debounceMs]
  -- split the count over the three blocks
  rw [edgeCount_append, edgeCount_append, edgeCount_hold (begin b0) _ ts1 hb.1 hb.2]
  rw [edgeCount_idle _ _ ts3 (by rw [run_usePullup, begin_usePullup])]
  rw [List.map_cons, edgeCount_cons]
  generalize run (begin b0) (ts1.map (fun t => (b0.usePullup, t))) = s1 at h1 hu1 hd1 ⊢
  -- the first active cycle restarts the timer and raises nothing
  have hne : (!b0.usePullup) ≠ s1.currentState := by
    rw [h1.2]; cases b0.usePullup <;> decide
  have hs2 : (step s1 (!b0.usePullup, tf)).lastStableState = b0.usePullup := by
    simp only [step]
    rw [update_stable, if_neg hne, ulongSub_self, if_neg (fun hh => Nat.not_lt_zero _ hh.1)]
    exact h1.1
  have he2 : (step s1 (!b0.usePullup, tf)).pressedEvent = false := by
    simp only [step]
    rw [update_event, if_neg hne, ulongSub_self]; simp
  have hc2 : (step s1 (!b0.usePullup, tf)).currentState = !b0.usePullup := by
    simp only [step]; rw [update_current]
  have hl2 : (step s1 (!b0.usePullup, tf)).lastChangeTime = tf := by
    simp only [step]; rw [update_lastChange, if_neg hne]
  have hu2 : (step s1 (!b0.usePullup, tf)).usePullup = b0.usePullup := by
    simp only [step]; rw [update_usePullup, hu1]
  have hd2 : (step s1 (!b0.usePullup, tf)).debounceMs = b0.debounceMs := by
    simp only [step]; rw [update_debounceMs, hd1]
  -- timestamps of the active block
  have hts : ∀ t ∈ ts2, tf ≤ t ∧ t < ULONG_MOD := by
    intro t ht
    refine ⟨?_, hrange t (by simp [ht])⟩
    have hs' := hsorted
    rw [List.Sorted, List.pairwise_append, List.pairwise_append] at hs'
    exact List.rel_of_pairwise_cons hs'.1.2.1 ht
  have hpend := edgeCount_pending (step s1 (!b0.usePullup, tf)) (!b0.usePullup) tf ts2
    (by rw [hu2]) hc2 (by rw [hs2, hu2]) hl2 hts (by rw [hd2]; exact hheld)
  rw [hpend]
  simp [he2]

/-- C6 on a pull-up tracker with a window of 50: idle cycles at 0, 30, 60,
active cycles at 100, 120, 151, 200 and idle cycles at 300, 330, 360. -/
theorem C6_single_edge_witness :
    edgeCount (begin (ctor 2 true 50))
      ([0, 30, 60].map (fun t => (idleLevel (ctor 2 true 50), t)) ++
        (100 :: [120, 151, 200]).map (fun t => (activeLevel (ctor 2 true 50), t)) ++
        [300, 330, 360].map (fun t => (idleLevel (ctor 2 true 50), t))) = 1 :=
  C6_single_edge (ctor 2 true 50) [0, 30, 60] [120, 151, 200] [300, 330, 360] 100
    (by decide) (by decide) ⟨151, by decide, by decide⟩

/-- C7, as stated, fails. `pendingBeforeRollover` is the state reached by
`begin()` and one `update()` that reads `LOW` at time 2^32 - 50. Two further
`update()` calls read `LOW` at times 0 and 2^32 - 50: the timestamps are
non-decreasing and below 2^32, and the second comes more than the window of
50 after the first, yet `lastStableState` is still `HIGH` after it, because
the unsigned differences from the timer are 50 and 0. -/
theorem C7_counterexample :
    pendingBeforeRollover = update (begin (ctor 2 true 50)) LOW 4294967246 ∧
    List.Sorted (fun a b => a ≤ b) [0, 4294967246] ∧
    (∀ t ∈ [0, 4294967246], t < ULONG_MOD) ∧
    pendingBeforeRollover.debounceMs < 4294967246 - 0 ∧
    (run pendingBeforeRollover
      ([0, 4294967246].map (fun t => (false, t)))).lastStableState ≠ false := by
  refine ⟨by decide, by decide, by decide, by decide, by decide⟩

/-- The first cycle that reads `r` at time `t1` leaves the raw level at `r`
and, unless `r` is accepted, a timer that is not later than `t1`. -/
theorem step_first_sample (b : Button) (r : Bool) (t1 : Nat)
    (hstate : b.currentState = r → b.lastStableState ≠ r → b.lastChangeTime ≤ t1) :
    (step b (r, t1)).currentState = r ∧
      ((step b (r, t1)).lastStableState = r ∨ (step b (r, t1)).lastChangeTime ≤ t1) := by
  simp only [step]
  refine ⟨update_current b r t1, ?_⟩
  rw [update_stable, update_lastChange]
  by_cases hc : r = b.currentState
  · rw [if_pos hc]
    by_cases hs : b.lastStableState = r
    · left
      rw [if_neg (fun hh => hh.2 hs)]
      exact hs
    · right
      exact hstate hc.symm hs
  · right
    rw [if_neg hc]

/-- Every later cycle that reads `r` keeps that property, at any time. -/
theorem step_same_sample (s : Button) (r : Bool) (t t1 : Nat)
    (hc : s.currentState = r) (hs : s.lastStableState = r ∨ s.lastChangeTime ≤ t1) :
    (step s (r, t)).currentState = r ∧
      ((step s (r, t)).lastStableState = r ∨ (step s (r, t)).lastChangeTime ≤ t1) := by
  simp only [step]
  refine ⟨update_current s r t, ?_⟩
  rw [update_stable, update_lastChange, if_pos hc.symm]
  rcases hs with hs | hs
  · left
    rw [if_neg (fun hh => hh.2 hs)]
    exact hs
  · split_ifs
    · exact Or.inl rfl
    · exact Or.inr hs

theorem run_same_sample (s : Button) (r : Bool) (ts : List Nat) (t1 : Nat)
    (hc : s.currentState = r) (hs : s.lastStableState = r ∨ s.lastChangeTime ≤ t1) :
    (run s (ts.map (fun t => (r, t)))).currentState = r ∧
      ((run s (ts.map (fun t => (r, t)))).lastStableState = r ∨
        (run s (ts.map (fun t => (r, t)))).lastChangeTime ≤ t1) := by
  induction ts generalizing s with
  | nil => exact ⟨hc, hs⟩
  | cons t ts ih =>
    have h := step_same_sample s r t t1 hc hs
    exact ih (step s (r, t)) h.1 h.2

/-- A cycle that reads `r` more than the window after `t1` accepts `r`. -/
theorem step_accepts (s : Button) (r : Bool) (t1 tk : Nat)
    (hc : s.currentState = r) (hs : s.lastStableState = r ∨ s.lastChangeTime ≤ t1)
    (hle : t1 ≤ tk) (hk : tk < ULONG_MOD) (hheld : s.debounceMs < tk - t1) :
    (step s (r, tk)).lastStableState = r := by
  simp only [step]
  rw [update_stable, if_pos hc.symm]
  rcases hs with hs | hs
  · rw [if_neg (fun hh => hh.2 hs)]
    exact hs
  · split_ifs with hcond
    · rfl
    · rw [ulongSub_of_le (le_trans hs hle) hk] at hcond
      have hlt : s.debounceMs < tk - s.lastChangeTime := by omega
      exact not_not.mp (fun hne => hcond ⟨hlt, hne⟩)

/-- Cycles that all read `r` at non-decreasing times below 2^32, the last
more than the window after the first, accept `r` when the timer of the
starting state is not later than the first time (or no change is waiting). -/
theorem run_same_accepts (b : Button) (r : Bool) (t1 tk : Nat) (mid : List Nat)
    (hsorted : List.Sorted (fun a b => a ≤ b) (t1 :: mid ++ [tk]))
    (hrange : ∀ t ∈ t1 :: mid ++ [tk], t < ULONG_MOD)
    (hheld : b.debounceMs < tk - t1)
    (hstate : b.currentState = r → b.lastStableState ≠ r → b.lastChangeTime ≤ t1) :
    (run b ((t1 :: mid ++ [tk]).map (fun t => (r, t)))).lastStableState = r := by
  have hle : t1 ≤ tk := by
    have hs' := hsorted
    rw [List.cons_append, List.Sorted, List.pairwise_cons] at hs'
    exact hs'.1 tk (by simp)
  have hk : tk < ULONG_MOD := hrange tk (by simp)
  have hrun : run b ((t1 :: mid ++ [tk]).map (fun t => (r, t))) =
      step (run (step b (r, t1)) (mid.map (fun t => (r, t)))) (r, tk) := by
    rw [List.cons_append, List.map_cons, run_cons, List.map_append, run_append]
    rfl
  have h1 := step_first_sample b r t1 hstate
  have h2 := run_same_sample (step b (r, t1)) r mid t1 h1.1 h1.2
  have hd : (run (step b (r, t1)) (mid.map (fun t => (r, t)))).debounceMs = b.debounceMs := by
    rw [run_debounceMs, step, update_debounceMs]
  rw [hrun]
  exact step_accepts _ r t1 tk h2.1 h2.2 hle hk (by rw [hd]; exact hheld)

/-- After a non-empty sequence of cycles that all read `r`, the raw level is
`r`. -/
theorem run_same_current (b : Button) (r : Bool) (t1 : Nat) (ts : List Nat) :
    (run b ((t1 :: ts).map (fun t => (r, t)))).currentState = r := by
  induction ts using List.reverseRecOn with
  | nil => show (step b (r, t1)).currentState = r; simp only [step]; rw [update_current]
  | append_singleton ts t _ =>
    rw [← List.cons_append, List.map_append, run_append]
    show (step _ (r, t)).currentState = r
    simp only [step]; rw [update_current]

/-- While `r` is the raw level and every cycle that reads `r` comes within
the window of the timer (unsigned difference), the accepted level does not
move. -/
theorem run_same_stuck (b : Button) (r : Bool) (ts : List Nat)
    (hc : b.currentState = r)
    (hall : ∀ t ∈ ts, ulongSub t b.lastChangeTime ≤ b.debounceMs) :
    (run b (ts.map (fun t => (r, t)))).lastStableState = b.lastStableState := by
  induction ts generalizing b with
  | nil => rfl
  | cons t ts ih =>
    have ht := hall t (by simp)
    have hst : (step b (r, t)).lastStableState = b.lastStableState := by
      simp only [step]
      rw [update_stable, if_pos hc.symm, if_neg (fun hh => absurd hh.1 (Nat.not_lt.mpr ht))]
    have hcur : (step b (r, t)).currentState = r := by
      simp only [step]; rw [update_current]
    have hL : (step b (r, t)).lastChangeTime = b.lastChangeTime := by
      simp only [step]; rw [update_lastChange, if_pos hc.symm]
    have hd : (step b (r, t)).debounceMs = b.debounceMs := by
      simp only [step]; rw [update_debounceMs]
    rw [List.map_cons, run_cons, ih (step b (r, t)) hcur, hst]
    intro u hu
    rw [hL, hd]
    exact hall u (List.mem_cons_of_mem _ hu)

/-- While `r` is the raw level, a cycle that reads `r` later than the window
after the timer (unsigned difference) makes `r` the accepted level, and it
stays accepted while `r` is read. -/
theorem run_same_exists (b : Button) (r : Bool) (ts : List Nat)
    (hc : b.currentState = r)
    (hex : ∃ t ∈ ts, b.debounceMs < ulongSub t b.lastChangeTime) :
    (run b (ts.map (fun t => (r, t)))).lastStableState = r := by
  induction ts generalizing b with
  | nil => obtain ⟨t, ht, _⟩ := hex; simp at ht
  | cons t ts ih =>
    have hcur : (step b (r, t)).currentState = r := by
      simp only [step]; rw [update_current]
    rw [List.map_cons, run_cons]
    by_cases hs : b.lastStableState = r
    · exact (run_hold (step b (r, t)) r ts (step_hold b r t hs hc).1 hcur).1
    · by_cases he : b.debounceMs < ulongSub t b.lastChangeTime
      · have hst : (step b (r, t)).lastStableState = r := by
          simp only [step]
          rw [update_stable, if_pos hc.symm, if_pos ⟨he, hs⟩]
        exact (run_hold (step b (r, t)) r ts hst hcur).1
      · apply ih (step b (r, t)) hcur
        obtain ⟨u, hu, hlt⟩ := hex
        have hL : (step b (r, t)).lastChangeTime = b.lastChangeTime := by
          simp only [step]; rw [update_lastChange, if_pos hc.symm]
        have hd : (step b (r, t)).debounceMs = b.debounceMs := by
          simp only [step]; rw [update_debounceMs]
        rw [hL, hd]
        rcases List.mem_cons.mp hu with hu | hu
        · rw [hu] at hlt; exact absurd hlt he
        · exact ⟨u, hu, hlt⟩

/-- When the span `tk - t1` exceeds the window but span plus window stays
below 2^32, one of the two times is later than the window after any timer
value, in unsigned arithmetic. -/
theorem elapsed_short_span (L d t1 tk : Nat) (hle : t1 ≤ tk)
    (hheld : d < tk - t1) (hshort : (tk - t1) + d < ULONG_MOD) :
    d < ulongSub t1 L ∨ d < ulongSub tk L := by
  simp only [ulongSub, ULONG_MOD, ULONG_BITS] at *
  norm_num at *
  omega

/-- A timer value above `tk` (and below 2^32) is more than the window
before `tk` in unsigned arithmetic as soon as `tk - t1` exceeds the window. -/
theorem elapsed_timer_ahead (L d t1 tk : Nat) (hle : t1 ≤ tk) (hheld : d < tk - t1)
    (hL : tk < L) (hLr : L < ULONG_MOD) :
    d < ulongSub tk L := by
  simp only [ulongSub, ULONG_MOD, ULONG_BITS] at *
  norm_num at *
  omega

/-- C7, amended. From every state, after `update()` calls that all read `r`
at non-decreasing times `t1 :: mid ++ [tk]` below 2^32 with
`tk - t1 > debounceMs`, `lastStableState` is `r` in all cases but one: `r` is
already the raw level, is not yet accepted, and every call of the sequence
comes within the window of `lastChangeTime` in unsigned arithmetic (in that
case `lastStableState` is not `r`). Whenever `lastStableState` is `r` after
the sequence, it is still `r`, with `wasPressed()` false, after every later
`update()` that reads `r`, at any times `later`. The exceptional case cannot
occur when `(tk - t1) + debounceMs < 2^32`, nor when the waiting change has
its `lastChangeTime` at or before `t1` or after `tk`: the original statement
holds for every such state and sequence, rollover states included. -/
theorem C7_idempotent_stability :
    (∀ (b : Button) (r : Bool) (t1 tk : Nat) (mid : List Nat),
      List.Sorted (fun a b => a ≤ b) (t1 :: mid ++ [tk]) →
      (∀ t ∈ t1 :: mid ++ [tk], t < ULONG_MOD) →
      b.debounceMs < tk - t1 →
      ((run b ((t1 :: mid ++ [tk]).map (fun t => (r, t)))).lastStableState = r ↔
        ¬ (b.currentState = r ∧ b.lastStableState ≠ r ∧
            ∀ t ∈ t1 :: mid ++ [tk], ulongSub t b.lastChangeTime ≤ b.debounceMs)) ∧
      ((run b ((t1 :: mid ++ [tk]).map (fun t => (r, t)))).lastStableState = r →
        ∀ later : List Nat,
          ∀ u ∈ trace (run b ((t1 :: mid ++ [tk]).map (fun t => (r, t))))
              (later.map (fun t => (r, t))),
            u.lastStableState = r ∧ (wasPressed u).1 = false)) ∧
    (∀ (b : Button) (r : Bool) (t1 tk : Nat) (mid : List Nat),
      List.Sorted (fun a b => a ≤ b) (t1 :: mid ++ [tk]) →
      (∀ t ∈ t1 :: mid ++ [tk], t < ULONG_MOD) →
      b.debounceMs < tk - t1 →
      ((tk - t1) + b.debounceMs < ULONG_MOD ∨
        (b.currentState = r → b.lastStableState ≠ r →
          b.lastChangeTime ≤ t1 ∨
            (tk < b.lastChangeTime ∧ b.lastChangeTime < ULONG_MOD))) →
      (run b ((t1 :: mid ++ [tk]).map (fun t => (r, t)))).lastStableState = r ∧
      ∀ later : List Nat,
        ∀ u ∈ trace (run b ((t1 :: mid ++ [tk]).map (fun t => (r, t))))
            (later.map (fun t => (r, t))),
          u.lastStableState = r ∧ (wasPressed u).1 = false) := by
  -- exact description of the accepted level after the sequence
  have key : ∀ (b : Button) (r : Bool) (t1 tk : Nat) (mid : List Nat),
      List.Sorted (fun a b => a ≤ b) (t1 :: mid ++ [tk]) →
      (∀ t ∈ t1 :: mid ++ [tk], t < ULONG_MOD) →
      b.debounceMs < tk - t1 →
      ((run b ((t1 :: mid ++ [tk]).map (fun t => (r, t)))).lastStableState = r ↔
        ¬ (b.currentState = r ∧ b.lastStableState ≠ r ∧
            ∀ t ∈ t1 :: mid ++ [tk], ulongSub t b.lastChangeTime ≤ b.debounceMs)) := by
    intro b r t1 tk mid hsorted hrange hheld
    constructor
    · rintro hfin ⟨hc, hs, hall⟩
      rw [run_same_stuck b r (t1 :: mid ++ [tk]) hc hall] at hfin
      exact hs hfin
    · intro hn
      by_cases hp : b.currentState = r ∧ b.lastStableState ≠ r
      · apply run_same_exists b r _ hp.1
        by_contra hne
        push_neg at hne
        exact hn ⟨hp.1, hp.2, hne⟩
      · exact run_same_accepts b r t1 tk mid hsorted hrange hheld
          (fun hc hs => absurd ⟨hc, hs⟩ hp)
  -- once accepted, the level is kept while it is read
  have stays : ∀ (b : Button) (r : Bool) (t1 tk : Nat) (mid : List Nat),
      (run b ((t1 :: mid ++ [tk]).map (fun t => (r, t)))).lastStableState = r →
      ∀ later : List Nat,
        ∀ u ∈ trace (run b ((t1 :: mid ++ [tk]).map (fun t => (r, t))))
            (later.map (fun t => (r, t))),
          u.lastStableState = r ∧ (wasPressed u).1 = false := by
    intro b r t1 tk mid hfin later u hu
    have hcur := run_same_current b r t1 (mid ++ [tk])
    rw [← List.cons_append] at hcur
    have h := trace_hold _ r later hfin hcur u hu
    exact ⟨h.1, h.2.2⟩
  refine ⟨fun b r t1 tk mid hsorted hrange hheld =>
    ⟨key b r t1 tk mid hsorted hrange hheld, stays b r t1 tk mid⟩, ?_⟩
  intro b r t1 tk mid hsorted hrange hheld hcase
  have hle : t1 ≤ tk := by
    have hs' := hsorted
    rw [List.cons_append, List.Sorted, List.pairwise_cons] at hs'
    exact hs'.1 tk (by simp)
  have hk : tk < ULONG_MOD := hrange tk (by simp)
  have hfin : (run b ((t1 :: mid ++ [tk]).map (fun t => (r, t)))).lastStableState = r := by
    rw [key b r t1 tk mid hsorted hrange hheld]
    rintro ⟨hc, hs, hall⟩
    have h1 : ulongSub t1 b.lastChangeTime ≤ b.debounceMs := hall t1 (by simp)
    have h2 : ulongSub tk b.lastChangeTime ≤ b.debounceMs := hall tk (by simp)
    rcases hcase with hshort | hout
    · rcases elapsed_short_span b.lastChangeTime b.debounceMs t1 tk hle hheld hshort
        with h | h
      · exact absurd h (Nat.not_lt.mpr h1)
      · exact absurd h (Nat.not_lt.mpr h2)
    · rcases hout hc hs with hL | ⟨hL, hLr⟩
      · rw [ulongSub_of_le (le_trans hL hle) hk] at h2
        omega
      · exact absurd (elapsed_timer_ahead b.lastChangeTime b.debounceMs t1 tk hle hheld
          hL hLr) (Nat.not_lt.mpr h2)
  exact ⟨hfin, stays b r t1 tk mid hfin⟩

/-- C7 (amended) at three states with the raw level `LOW` waiting (window
50): `pendingBeforeRollover` polled at 0 and 2^32 - 50 is the exceptional
case; `pendingAcrossRollover` (timer 2^32 - 10) polled at 5 and 60 and
`pendingPress` (timer 20) polled at 30, 50 and 81 accept `LOW` and keep it. -/
theorem C7_idempotent_stability_witness :
    (((run pendingBeforeRollover
          ((0 :: [] ++ [4294967246]).map (fun t => (false, t)))).lastStableState = false ↔
        ¬ (pendingBeforeRollover.currentState = false ∧
            pendingBeforeRollover.lastStableState ≠ false ∧
            ∀ t ∈ 0 :: [] ++ [4294967246],
              ulongSub t pendingBeforeRollover.lastChangeTime ≤
                pendingBeforeRollover.debounceMs)) ∧
      ((run pendingBeforeRollover
          ((0 :: [] ++ [4294967246]).map (fun t => (false, t)))).lastStableState = false →
        ∀ later : List Nat,
          ∀ u ∈ trace (run pendingBeforeRollover
                ((0 :: [] ++ [4294967246]).map (fun t => (false, t))))
              (later.map (fun t => (false, t))),
            u.lastStableState = false ∧ (wasPressed u).1 = false)) ∧
    ((run pendingAcrossRollover
        ((5 :: [] ++ [60]).map (fun t => (false, t)))).lastStableState = false ∧
      ∀ later : List Nat,
        ∀ u ∈ trace (run pendingAcrossRollover
              ((5 :: [] ++ [60]).map (fun t => (false, t))))
            (later.map (fun t => (false, t))),
          u.lastStableState = false ∧ (wasPressed u).1 = false) ∧
    ((run pendingPress
        ((30 :: [50] ++ [81]).map (fun t => (false, t)))).lastStableState = false ∧
      ∀ later : List Nat,
        ∀ u ∈ trace (run pendingPress
              ((30 :: [50] ++ [81]).map (fun t => (false, t))))
            (later.map (fun t => (false, t))),
          u.lastStableState = false ∧ (wasPressed u).1 = false) :=
  ⟨C7_idempotent_stability.1 pendingBeforeRollover false 0 4294967246 []
      (by decide) (by decide) (by decide),
   C7_idempotent_stability.2 pendingAcrossRollover false 5 60 []
      (by decide) (by decide) (by decide) (Or.inl (by decide)),
   C7_idempotent_stability.2 pendingPress false 30 81 [50]
      (by decide) (by decide) (by decide) (Or.inr (fun _ _ => Or.inl (by decide)))⟩

/-! ## Reading the flag -/

/-- C11. `wasPressed()` returns `pressedEvent` and leaves the object as it
was, so two calls in a row return the same value, and so does a call after
any number `n` of earlier `wasPressed()` calls without an `update()` in
between. -/
theorem C11_no_self_reset (b : Button) :
    (wasPressed b).1 = b.pressedEvent ∧
    (wasPressed b).2 = b ∧
    (wasPressed (wasPressed b).2).1 = (wasPressed b).1 ∧
    ∀ n : Nat, (wasPressed (Nat.iterate (fun s => (wasPressed s).2) n b)).1
      = (wasPressed b).1 := by
  refine ⟨rfl, rfl, rfl, ?_⟩
  intro n
  induction n with
  | zero => rfl
  | succ n ih => rw [Function.iterate_succ_apply]; exact ih

/-! ## Clock rollover -/

/-- The model of `unsigned long` subtraction is the difference of the two
values reduced modulo 2^32. -/
theorem ulongSub_eq_emod (a b : Nat) :
    ((ulongSub a b : Nat) : Int) = ((a : Int) - (b : Int)) % ((2 : Int) ^ ULONG_BITS) := by
  simp only [ulongSub, ULONG_MOD, ULONG_BITS]
  norm_num
  omega

/-- Moving both operands forward by `k` ticks (modulo 2^32) does not change
their unsigned difference. -/
theorem ulongSub_shift (a b k : Nat) :
    ulongSub ((a + k) % ULONG_MOD) ((b + k) % ULONG_MOD) = ulongSub a b := by
  simp only [ulongSub, ULONG_MOD, ULONG_BITS]
  norm_num
  omega

/-- The elapsed time that `update()` compares with the window is the same on
the object with the timer moved by `k` at the time moved by `k`. -/
theorem elapsed_shift (b : Button) (r : Bool) (now k : Nat) :
    ulongSub ((now + k) % ULONG_MOD)
      (if r = (shiftTimer b k).currentState then (shiftTimer b k).lastChangeTime
        else (now + k) % ULONG_MOD) =
    ulongSub now (if r = b.currentState then b.lastChangeTime else now) := by
  simp only [shiftTimer]
  by_cases h : r = b.currentState
  · rw [if_pos h, if_pos h, ulongSub_shift]
  · rw [if_neg h, if_neg h, ulongSub_self, ulongSub_self]

/-- C12. Wraparound tolerance. The elapsed time that `update()` compares with
`debounceMs` is `now - lastChangeTime` reduced modulo 2^32 (`unsigned long`
has 32 bits), so running `update()` on the object with `lastChangeTime` moved
by `k` (mod 2^32) at the time `now` moved by `k` (mod 2^32) gives the same
`lastStableState`, `currentState` and `pressedEvent`. With a window of 50,
`lastChangeTime = 2^32 - 10` and `now = 45` the elapsed time is 55 and the
waiting raw level is accepted. -/
theorem C12_wraparound (b : Button) (r : Bool) (now k : Nat) :
    ((update b (boolToInt r) now).lastStableState =
      (if (b.debounceMs : Int) <
            ((now : Int) - ((update b (boolToInt r) now).lastChangeTime : Int))
              % ((2 : Int) ^ ULONG_BITS) ∧
          b.lastStableState ≠ r
        then r else b.lastStableState)) ∧
    ((update (shiftTimer b k) (boolToInt r) ((now + k) % ULONG_MOD)).lastStableState =
        (update b (boolToInt r) now).lastStableState ∧
      (update (shiftTimer b k) (boolToInt r) ((now + k) % ULONG_MOD)).currentState =
        (update b (boolToInt r) now).currentState ∧
      (update (shiftTimer b k) (boolToInt r) ((now + k) % ULONG_MOD)).pressedEvent =
        (update b (boolToInt r) now).pressedEvent) ∧
    (pendingAcrossRollover.debounceMs = 50 ∧
      pendingAcrossRollover.lastChangeTime = 2 ^ 32 - 10 ∧
      ulongSub 45 pendingAcrossRollover.lastChangeTime = 55 ∧
      pendingAcrossRollover.lastStableState ≠ pendingAcrossRollover.currentState ∧
      (update pendingAcrossRollover (boolToInt pendingAcrossRollover.currentState)
        45).lastStableState = pendingAcrossRollover.currentState) := by
  refine ⟨?_, ⟨?_, ?_, ?_⟩, by decide⟩
  · rw [update_stable, update_lastChange, ← ulongSub_eq_emod]
    simp only [Nat.cast_lt, gt_iff_lt]
  · rw [update_stable, update_stable, elapsed_shift]; rfl
  · rw [update_current, update_current]
  · rw [update_event, update_event, elapsed_shift]; rfl

/-! ## Construction without `begin()` -/

theorem trace_usePullup (s : Button) (xs : List (Bool × Nat)) :
    ∀ u ∈ trace s xs, u.usePullup = s.usePullup := by
  induction xs generalizing s with
  | nil => intro u hu; simp [trace] at hu
  | cons x xs ih =>
    intro u hu
    have hx : (step s x).usePullup = s.usePullup := by
      simp only [step]; rw [update_usePullup]
    simp only [trace, List.mem_cons] at hu
    rcases hu with hu | hu
    · rw [hu]; exact hx
    · rw [ih (step s x) u hu]; exact hx

/-- The first `update()` on a freshly constructed object leaves the accepted
level at the constructor's `HIGH`, whatever it reads. -/
theorem update_ctor_stable (p : Nat) (up : Bool) (d : Nat) (r : Bool) (now : Nat) :
    (update (ctor p up d) (boolToInt r) now).lastStableState = intToBool HIGH := by
  rw [update_stable]
  by_cases h : r = (ctor p up d).currentState
  · rw [if_neg]
    · rfl
    · rintro ⟨_, hne⟩
      exact hne h.symm
  · rw [if_neg h, ulongSub_self, if_neg (fun hh => Nat.not_lt_zero _ hh.1)]
    rfl

/-- C13. Update before begin. A freshly constructed object has
`lastStableState = currentState = HIGH` whatever `usePullup` is, with
`pressedEvent` false and `lastChangeTime` 0, and an `update()` without
`begin()` leaves `lastStableState` at `HIGH`, which without the pull-up is
not the idle level. Without the pull-up `isPressed()` is true on the fresh
object, and after every `update()` of a sequence that reads only `HIGH`
`isPressed()` is true and `wasPressed()` false. -/
theorem C13_update_before_begin (p : Nat) (up : Bool) (d : Nat) :
    ((ctor p up d).lastStableState = intToBool HIGH ∧
      (ctor p up d).currentState = intToBool HIGH ∧
      (ctor p up d).pressedEvent = false ∧
      (ctor p up d).lastChangeTime = 0) ∧
    (∀ (r : Bool) (now : Nat),
      (update (ctor p up d) (boolToInt r) now).lastStableState = intToBool HIGH) ∧
    idleLevel (ctor p false d) ≠ intToBool HIGH ∧
    (isPressed (ctor p false d)).1 = true ∧
    (∀ ts : List Nat,
      ∀ u ∈ trace (ctor p false d) (ts.map (fun t => (intToBool HIGH, t))),
        (isPressed u).1 = true ∧ (wasPressed u).1 = false) := by
  refine ⟨⟨rfl, rfl, rfl, rfl⟩, update_ctor_stable p up d,
    by simp [idleLevel, ctor, intToBool, HIGH, LOW],
    by simp [isPressed, ctor, intToBool, boolToInt, HIGH], ?_⟩
  intro ts u hu
  have h := trace_hold (ctor p false d) (intToBool HIGH) ts rfl rfl u hu
  have hup : u.usePullup = false := trace_usePullup _ _ u hu
  refine ⟨?_, h.2.2⟩
  simp only [isPressed, hup, h.1, Bool.false_eq_true, if_false]
  decide

/-- C13 on an object built without the pull-up (window 50) and polled at
times 0, 40 and 100 with the input at `HIGH`. -/
theorem C13_update_before_begin_witness :
    (isPressed (run (ctor 2 false 50)
      ([0, 40, 100].map (fun t => (intToBool HIGH, t))))).1 = true ∧
    (wasPressed (run (ctor 2 false 50)
      ([0, 40, 100].map (fun t => (intToBool HIGH, t))))).1 = false :=
  (C13_update_before_begin 2 false 50).2.2.2.2 [0, 40, 100]
    (run (ctor 2 false 50) ([0, 40, 100].map (fun t => (intToBool HIGH, t)))) (by decide)

/-! ## Configuration -/

/-- `update()` leaves the three configuration members alone, for every value
that `digitalRead` may return. -/
theorem update_config (b : Button) (reading : Int) (now : Nat) :
    (update b reading now).pin = b.pin ∧
      (update b reading now).usePullup = b.usePullup ∧
      (update b reading now).debounceMs = b.debounceMs := by
  simp only [update]
  split_ifs <;> exact ⟨rfl, rfl, rfl⟩

theorem begin_config (b : Button) :
    (begin b).pin = b.pin ∧ (begin b).usePullup = b.usePullup ∧
      (begin b).debounceMs = b.debounceMs := by
  unfold begin; split <;> exact ⟨rfl, rfl, rfl⟩

theorem isPressed_snd (b : Button) : (isPressed b).2 = b := by
  unfold isPressed; split <;> rfl

theorem applyCall_config (b : Button) (c : Call) :
    (applyCall b c).pin = b.pin ∧ (applyCall b c).usePullup = b.usePullup ∧
      (applyCall b c).debounceMs = b.debounceMs := by
  cases c with
  | begin => exact begin_config b
  | update reading now => exact update_config b reading now
  | wasPressed => exact ⟨rfl, rfl, rfl⟩
  | isPressed =>
    show ((isPressed b).2).pin = b.pin ∧ ((isPressed b).2).usePullup = b.usePullup ∧
      ((isPressed b).2).debounceMs = b.debounceMs
    rw [isPressed_snd]
    exact ⟨rfl, rfl, rfl⟩

theorem runCalls_config (b : Button) (cs : List Call) :
    (runCalls b cs).pin = b.pin ∧ (runCalls b cs).usePullup = b.usePullup ∧
      (runCalls b cs).debounceMs = b.debounceMs := by
  induction cs generalizing b with
  | nil => exact ⟨rfl, rfl, rfl⟩
  | cons c cs ih =>
    have h1 := applyCall_config b c
    have h2 := ih (applyCall b c)
    exact ⟨h2.1.trans h1.1, h2.2.1.trans h1.2.1, h2.2.2.trans h1.2.2⟩

/-- C14. `update()` leaves `pin`, `usePullup` and `debounceMs` unchanged and
so modifies at most `pressedEvent`, `currentState`, `lastChangeTime` and
`lastStableState`; the configuration is the same after any sequence of
`begin()`, `update()`, `wasPressed()` and `isPressed()` calls, from any
state, and in particular it is the one set by the constructor. -/
theorem C14_update_frame (b : Button) (reading : Int) (now : Nat) (cs : List Call)
    (p : Nat) (up : Bool) (d : Nat) :
    ((update b reading now).pin = b.pin ∧
      (update b reading now).usePullup = b.usePullup ∧
      (update b reading now).debounceMs = b.debounceMs) ∧
    update b reading now =
      { b with
        pressedEvent := (update b reading now).pressedEvent
        currentState := (update b reading now).currentState
        lastChangeTime := (update b reading now).lastChangeTime
        lastStableState := (update b reading now).lastStableState } ∧
    ((runCalls b cs).pin = b.pin ∧
      (runCalls b cs).usePullup = b.usePullup ∧
      (runCalls b cs).debounceMs = b.debounceMs) ∧
    ((runCalls (ctor p up d) cs).pin = p % UINT8_MOD ∧
      (runCalls (ctor p up d) cs).usePullup = up ∧
      (runCalls (ctor p up d) cs).debounceMs = d % ULONG_MOD) := by
  refine ⟨update_config b reading now, ?_, runCalls_config b cs, runCalls_config _ cs⟩
  obtain ⟨h1, h2, h3⟩ := update_config b reading now
  generalize update b reading now = b' at h1 h2 h3
  cases b
  cases b'
  simp only at h1 h2 h3
  simp [h1, h2, h3]

/-! ## Press edges and the pressed state -/

theorem isPressed_iff (b : Button) :
    (isPressed b).1 = true ↔ b.lastStableState = !b.usePullup := by
  obtain ⟨pin, up, lct, d, st, cur, ev⟩ := b
  cases up <;> cases st <;> simp [isPressed, boolToInt, HIGH, LOW]

/-- A cycle that raises the flag started from the idle accepted level, read
the active level and accepted it. -/
theorem update_event_true (b : Button) (r : Bool) (now : Nat)
    (h : (update b (boolToInt r) now).pressedEvent = true) :
    b.lastStableState = b.usePullup ∧ r = (!b.usePullup) ∧
      (update b (boolToInt r) now).lastStableState = r := by
  rw [update_event] at h
  simp only [Bool.and_eq_true, decide_eq_true_eq, beq_iff_eq] at h
  obtain ⟨⟨hd, hs⟩, hr⟩ := h
  refine ⟨hs, hr, ?_⟩
  rw [update_stable, if_pos]
  refine ⟨hd, ?_⟩
  rw [hs, hr]
  cases b.usePullup <;> decide

/-- After a cycle that raises the flag, `isPressed()` is true and the
accepted level is the raw level. -/
theorem update_event_pressed (b : Button) (r : Bool) (now : Nat)
    (h : (update b (boolToInt r) now).pressedEvent = true) :
    (isPressed (update b (boolToInt r) now)).1 = true ∧
      (update b (boolToInt r) now).lastStableState =
        (update b (boolToInt r) now).currentState := by
  obtain ⟨_, hr, hst⟩ := update_event_true b r now h
  constructor
  · rw [isPressed_iff, hst, update_usePullup]; exact hr
  · rw [hst, update_current]

/-- A cycle that starts with `isPressed()` true does not raise the flag. -/
theorem update_pressed_no_event (b : Button) (r : Bool) (now : Nat)
    (h : (isPressed b).1 = true) :
    (update b (boolToInt r) now).pressedEvent = false := by
  rw [isPressed_iff] at h
  cases hev : (update b (boolToInt r) now).pressedEvent with
  | false => rfl
  | true =>
    obtain ⟨hs, _, _⟩ := update_event_true b r now hev
    rw [hs] at h
    cases hup : b.usePullup <;> rw [hup] at h <;> simp at h

/-- C15. In every state reached from the constructor by an optional
`begin()` and then any sequence of `update()` calls (any samples, any
timestamps), `wasPressed()` true implies `isPressed()` true and
`lastStableState = currentState`; and an `update()` that starts from any
state with `isPressed()` true ends with `wasPressed()` false. -/
theorem C15_edge_implies_pressed :
    (∀ (p : Nat) (up : Bool) (d : Nat) (withBegin : Bool) (xs : List (Bool × Nat)),
      (wasPressed (run (if withBegin then begin (ctor p up d) else ctor p up d) xs)).1
        = true →
      (isPressed (run (if withBegin then begin (ctor p up d) else ctor p up d) xs)).1
        = true ∧
      (run (if withBegin then begin (ctor p up d) else ctor p up d) xs).lastStableState =
        (run (if withBegin then begin (ctor p up d) else ctor p up d) xs).currentState) ∧
    (∀ (b : Button) (r : Bool) (now : Nat), (isPressed b).1 = true →
      (wasPressed (update b (boolToInt r) now)).1 = false) := by
  refine ⟨?_, fun b r now h => update_pressed_no_event b r now h⟩
  intro p up d withBegin xs
  induction xs using List.reverseRecOn with
  | nil =>
    intro h
    cases withBegin <;> cases up <;> simp [run, wasPressed, begin, ctor] at h
  | append_singleton xs x _ =>
    rw [run_concat]
    intro h
    exact update_event_pressed _ x.1 x.2 h

/-- C15 on the bounce scenario (pull-up, window 50, after `begin()`): the
cycle at time 80 raises the flag, and one more cycle does not. -/
theorem C15_edge_implies_pressed_witness :
    ((isPressed (run (if true then begin (ctor 2 true 50) else ctor 2 true 50)
        [(true, 0), (false, 10), (true, 15), (false, 20), (false, 80)])).1 = true ∧
      (run (if true then begin (ctor 2 true 50) else ctor 2 true 50)
        [(true, 0), (false, 10), (true, 15), (false, 20), (false, 80)]).lastStableState =
      (run (if true then begin (ctor 2 true 50) else ctor 2 true 50)
        [(true, 0), (false, 10), (true, 15), (false, 20), (false, 80)]).currentState) ∧
    (wasPressed (update (update pendingPress (boolToInt false) 80) (boolToInt false) 90)).1
      = false :=
  ⟨C15_edge_implies_pressed.1 2 true 50 true
      [(true, 0), (false, 10), (true, 15), (false, 20), (false, 80)] (by decide),
   C15_edge_implies_pressed.2 (update pendingPress (boolToInt false) 80) false 90
      (by decide)⟩

/-- A cycle that raises the flag started with `isPressed()` false. -/
theorem update_event_not_pressed (b : Button) (r : Bool) (now : Nat)
    (h : (update b (boolToInt r) now).pressedEvent = true) :
    (isPressed b).1 = false := by
  cases hp : (isPressed b).1 with
  | false => rfl
  | true =>
    rw [update_pressed_no_event b r now hp] at h
    exact absurd h (by decide)

/-- C16. No double trigger. From any state and for any samples and
timestamps, `wasPressed()` is not true after two `update()` calls in a row;
and when the cycle `x` and the later cycle `y` both end with `wasPressed()`
true, one of the cycles `mid` between them ends with `isPressed()` false. -/
theorem C16_no_double_trigger :
    (∀ (s : Button) (x y : Bool × Nat), (wasPressed (step s x)).1 = true →
      (wasPressed (step (step s x) y)).1 = false) ∧
    (∀ (s : Button) (x y : Bool × Nat) (mid : List (Bool × Nat)),
      (wasPressed (step s x)).1 = true →
      (wasPressed (step (run (step s x) mid) y)).1 = true →
      ∃ m1 z m2, mid = m1 ++ z :: m2 ∧
        (isPressed (run (step s x) (m1 ++ [z]))).1 = false) := by
  have hconsec : ∀ (s : Button) (x y : Bool × Nat), (wasPressed (step s x)).1 = true →
      (wasPressed (step (step s x) y)).1 = false := by
    intro s x y h
    exact update_pressed_no_event (step s x) y.1 y.2
      (update_event_pressed s x.1 x.2 h).1
  refine ⟨hconsec, ?_⟩
  intro s x y mid hx hy
  rcases List.eq_nil_or_concat mid with hmid | ⟨m, z, hmid⟩
  · rw [hmid, run_nil, hconsec s x y hx] at hy
    exact absurd hy (by decide)
  · rw [List.concat_eq_append] at hmid
    refine ⟨m, z, [], hmid, ?_⟩
    rw [hmid] at hy
    exact update_event_not_pressed _ y.1 y.2 hy

/-- C16 on a press accepted at time 80, released (accepted at 160) and
pressed again (accepted at 260), and on the cycle that follows the first
press. -/
theorem C16_no_double_trigger_witness :
    (wasPressed (step (step pendingPress (false, 80)) (false, 90))).1 = false ∧
    ∃ m1 z m2, [(true, 100), (true, 160), (false, 200)] = m1 ++ z :: m2 ∧
      (isPressed (run (step pendingPress (false, 80)) (m1 ++ [z]))).1 = false :=
  ⟨C16_no_double_trigger.1 pendingPress (false, 80) (false, 90) (by decide),
   C16_no_double_trigger.2 pendingPress (false, 80) (false, 260)
     [(true, 100), (true, 160), (false, 200)] (by decide) (by decide)⟩

/-! ## Frame of `begin()` -/

/-- Right after `begin()`, `isPressed()` returns false. -/
theorem isPressed_begin (b : Button) : (isPressed (begin b)).1 = false := by
  obtain ⟨pin, up, lct, d, st, cur, ev⟩ := b
  cases up <;> simp [begin, isPressed, intToBool, boolToInt, HIGH, LOW]

/-- C17. `begin()` changes only `lastStableState` and `currentState`: it
leaves `pressedEvent`, `lastChangeTime`, `pin`, `usePullup` and `debounceMs`
unchanged. Hence `begin()` twice is `begin()` once (same object, same
`pinMode` call), and `begin()` right after an `update()` that raised the
flag gives a state in which `wasPressed()` is still true and `isPressed()`
is false. -/
theorem C17_begin_frame (b : Button) :
    ((begin b).pressedEvent = b.pressedEvent ∧
      (begin b).lastChangeTime = b.lastChangeTime ∧
      (begin b).pin = b.pin ∧
      (begin b).usePullup = b.usePullup ∧
      (begin b).debounceMs = b.debounceMs) ∧
    begin b =
      { b with
        lastStableState := (begin b).lastStableState
        currentState := (begin b).currentState } ∧
    (begin (begin b) = begin b ∧ beginPinMode (begin b) = beginPinMode b) ∧
    (∀ (r : Bool) (now : Nat), (wasPressed (update b (boolToInt r) now)).1 = true →
      (wasPressed (begin (update b (boolToInt r) now))).1 = true ∧
      (isPressed (begin (update b (boolToInt r) now))).1 = false) := by
  refine ⟨?_, ?_, ⟨?_, ?_⟩, ?_⟩
  · unfold begin; split <;> exact ⟨rfl, rfl, rfl, rfl, rfl⟩
  · unfold begin; split <;> rfl
  · obtain ⟨pin, up, lct, d, st, cur, ev⟩ := b
    cases up <;> rfl
  · obtain ⟨pin, up, lct, d, st, cur, ev⟩ := b
    cases up <;> rfl
  · intro r now h
    refine ⟨?_, (isPressed_begin (update b (boolToInt r) now))⟩
    have e : (begin (update b (boolToInt r) now)).pressedEvent =
        (update b (boolToInt r) now).pressedEvent := by
      unfold begin; split <;> rfl
    simp only [wasPressed] at h ⊢
    rw [e]; exact h

/-- C17 at `pendingPress`, whose press is accepted at time 80. -/
theorem C17_begin_frame_witness :
    (wasPressed (begin (update pendingPress (boolToInt false) 80))).1 = true ∧
    (isPressed (begin (update pendingPress (boolToInt false) 80))).1 = false :=
  (C17_begin_frame pendingPress).2.2.2 false 80 (by decide)

/-! ## Duality of the two wiring modes -/

/-- One cycle with inverted samples keeps two objects mirror images. -/
theorem step_mirror (s1 s2 : Button) (x : Bool × Nat) (h : Mirror s1 s2) :
    Mirror (step s1 x) (step s2 (!x.1, x.2)) := by
  obtain ⟨r, t⟩ := x
  obtain ⟨hu1, hu2, hd, hl, hs, hc, _⟩ := h
  simp only [Mirror, step, update_stable, update_current, update_lastChange, update_event,
    update_usePullup, update_debounceMs, hu1, hu2, hd, hl, hs, hc]
  refine ⟨trivial, trivial, trivial, ?_, ?_, trivial, ?_⟩
  · cases r <;> cases s1.currentState <;> simp
  · cases r <;> cases s1.currentState <;> cases s1.lastStableState <;> simp
  · cases r <;> cases s1.currentState <;> cases s1.lastStableState <;> simp

theorem run_mirror (s1 s2 : Button) (xs : List (Bool × Nat)) (h : Mirror s1 s2) :
    Mirror (run s1 xs) (run s2 (invertSamples xs)) := by
  induction xs generalizing s1 s2 with
  | nil => exact h
  | cons x xs ih => exact ih (step s1 x) (step s2 (!x.1, x.2)) (step_mirror s1 s2 x h)

/-- After `begin()`, an object built with the pull-up and one built without,
with the same window, are mirror images. -/
theorem begin_ctor_mirror (p1 p2 d : Nat) :
    Mirror (begin (ctor p1 true d)) (begin (ctor p2 false d)) := by
  simp [Mirror, begin, ctor, intToBool, HIGH, LOW]

/-- C18. Polarity duality. For every window `d` and every sequence `xs` of
(sample, timestamp) pairs, take the run `begin()` then `update()` on an
object built with the pull-up fed `xs`, and the run on an object built
without it fed the inverted samples at the same timestamps. After every
number `n` of steps the two give the same `isPressed()` and `wasPressed()`
results and the same `lastChangeTime`, and their `lastStableState` and
`currentState` are inverses of each other. -/
theorem C18_polarity_duality (p1 p2 d : Nat) (xs : List (Bool × Nat)) (n : Nat) :
    (isPressed (run (begin (ctor p2 false d)) ((invertSamples xs).take n))).1 =
      (isPressed (run (begin (ctor p1 true d)) (xs.take n))).1 ∧
    (wasPressed (run (begin (ctor p2 false d)) ((invertSamples xs).take n))).1 =
      (wasPressed (run (begin (ctor p1 true d)) (xs.take n))).1 ∧
    (run (begin (ctor p2 false d)) ((invertSamples xs).take n)).lastChangeTime =
      (run (begin (ctor p1 true d)) (xs.take n)).lastChangeTime ∧
    (run (begin (ctor p2 false d)) ((invertSamples xs).take n)).lastStableState =
      (!(run (begin (ctor p1 true d)) (xs.take n)).lastStableState) ∧
    (run (begin (ctor p2 false d)) ((invertSamples xs).take n)).currentState =
      (!(run (begin (ctor p1 true d)) (xs.take n)).currentState) := by
  have htake : (invertSamples xs).take n = invertSamples (xs.take n) := by
    simp only [invertSamples, List.map_take]
  rw [htake]
  obtain ⟨hu1, hu2, _, hl, hs, hc, he⟩ :=
    run_mirror _ _ (xs.take n) (begin_ctor_mirror p1 p2 d)
  refine ⟨?_, he, hl, hs, hc⟩
  generalize run (begin (ctor p1 true d)) (xs.take n) = s1 at hu1 hs
  generalize run (begin (ctor p2 false d)) (invertSamples (xs.take n)) = s2 at hu2 hs
  simp only [isPressed, hu1, hu2, hs, if_true, Bool.false_eq_true, if_false]
  cases s1.lastStableState <;> decide

end Button
